import Mathlib

/-
  Verification of the lazy linked-list core of bitwalker/functools
  (src/functools.go).

  The Go representation:
    type LinkedList func() *Node         -- a thunk producing a node or nil
    var Empty *LinkedList                -- a NIL POINTER (note: not a thunk)
    type Node struct { Head Anything; Tail *LinkedList }

  A `*LinkedList` value is either the nil pointer `Empty` or a pointer to a
  closure.  Every closure the library can build has one of five shapes:
    - the closure built by Cons      (captures head and tail pointer),
    - the closure built by Take      (captures list pointer and n),
    - the closure built by Drop      (captures list pointer and n, mutates them),
    - the closure built by Map       (captures list pointer and f),
    - the closure built by Generate  (captures seed and successor; Generate is
      declared in the README but its body is not in src, see `Generate` below).
  We embed the closure graph as the inductive `LL`, and a `*LinkedList` as
  `Option (LL α)` (`none` = the nil pointer `Empty`).  Go `Anything` is the
  type parameter `α`; Go `int` is `Int`.

  Invoking a closure is `force` below.  Invoking the nil pointer dereferences
  nil and panics; a panic is the explicit outcome `Res.panic`.  `force` takes
  fuel because a single invocation of a Drop closure loops; fuel `none` means
  "not yet finished at this fuel" and is monotone (`force_mono`).
-/

namespace Functools

/-- One Go `LinkedList` closure.  Each constructor is one closure shape the
library can allocate; the fields are exactly the captured variables. -/
inductive LL (α : Type) : Type where
  /-- the closure allocated by `Cons(head, tail)`: returns `&Node{head, tail}` -/
  | consT : α → Option (LL α) → LL α
  /-- the closure allocated by `list.Take(n)` -/
  | takeT : Option (LL α) → Int → LL α
  /-- the closure allocated by `list.Drop(n)` -/
  | dropT : Option (LL α) → Int → LL α
  /-- the closure allocated by `list.Map(f)` -/
  | mapT : Option (LL α) → (α → α) → LL α
  /-- Modelled from the spec: the closure allocated by `Generate(seed, f)`.
  `Generate` is listed in the README and §4.2 of the design but its body is
  missing from src; per the spec its head is the seed and its tail, when
  forced, is `Generate(f seed, f)`. -/
  | genT : α → (α → α) → LL α

/-- Outcome of invoking one `*LinkedList`.
`panic` = nil-pointer dereference (invoking the nil pointer `Empty`),
`done`  = the closure returned `nil` (end of list),
`node h t` = the closure returned `&Node{h, t}`. -/
inductive Res (α : Type) : Type where
  | panic : Res α
  | done : Res α
  | node : α → Option (LL α) → Res α

/-- Go `Empty`: the nil `*LinkedList` pointer. -/
def Empty {α : Type} : Option (LL α) := none

/-- Go `Cons(head, tail)`: allocates a cons closure, returns its address. -/
def Cons {α : Type} (head : α) (tail : Option (LL α)) : Option (LL α) :=
  some (.consT head tail)

/-- Go `list.Take(n)`: allocates the take closure, returns its address
(always a non-nil pointer, even when `list` is nil). -/
def Take {α : Type} (list : Option (LL α)) (n : Int) : Option (LL α) :=
  some (.takeT list n)

/-- Go `list.Drop(n)`: allocates the drop closure, returns its address. -/
def Drop {α : Type} (list : Option (LL α)) (n : Int) : Option (LL α) :=
  some (.dropT list n)

/-- Go `list.Map(f)`: allocates the map closure, returns its address. -/
def Map {α : Type} (list : Option (LL α)) (f : α → α) : Option (LL α) :=
  some (.mapT list f)

/-- Modelled from the spec: `Generate(seed, f)` (body missing from src). -/
def Generate {α : Type} (seed : α) (f : α → α) : Option (LL α) :=
  some (.genT seed f)

/-- What one invocation of the Map closure does to the node produced by the
underlying list: node `h t` becomes node `f h` with tail
`Empty` if `t` is nil, else `t.Map(f)`; returning nil and panicking pass
through. -/
def mapRes {α : Type} (f : α → α) : Res α → Res α
  | .panic => .panic
  | .done => .done
  | .node h t => .node (f h) (Option.map (fun t2 => LL.mapT (some t2) f) t)

/-- Invoke a `*LinkedList` once: `(*list)()` in Go.
Invoking the nil pointer panics.  Each closure body is translated directly:
  - cons: `return &Node{head, tail}`;
  - take: `if n > 0 { node := (*list)(); if node != nil { return
    &Node{node.Head, node.Tail.Take(n-1)} } }; return nil`;
  - drop: `node := (*list)(); if node != nil { if n > 0 { n--; list =
    node.Tail; return remaining() }; return node }; return nil` — the
    re-entry `remaining()` with the updated captures is the recursive call
    on a drop closure with the advanced list and decremented n;
  - map: see `mapRes`;
  - gen (spec-modelled): `return &Node{seed, Generate(f(seed), f)}`.
A panic inside an inner invocation propagates (Go unwinding). -/
def force {α : Type} (fuel : Nat) (l : Option (LL α)) : Option (Res α) :=
  match fuel with
  | 0 => none
  | f + 1 =>
    match l with
    | none => some .panic
    | some t =>
      match t with
      | .consT h tl => some (.node h tl)
      | .genT s g => some (.node s (some (.genT (g s) g)))
      | .takeT l2 n =>
        if 0 < n then
          match force f l2 with
          | none => none
          | some .panic => some .panic
          | some .done => some .done
          | some (.node h tl) => some (.node h (some (.takeT tl (n - 1))))
        else some .done
      | .mapT l2 g =>
        match force f l2 with
        | none => none
        | some r => some (mapRes g r)
      | .dropT l2 n =>
        match force f l2 with
        | none => none
        | some .panic => some .panic
        | some .done => some .done
        | some (.node h tl) =>
          if 0 < n then force f (some (.dropT tl (n - 1)))
          else some (.node h tl)

/-- One complete invocation of a Drop closure, also returning the closure's
captured state `(list, n)` as it stands when the invocation returns (the Go
closure mutates its captures `list` and `n` across the loop). -/
def dropRun {α : Type} (fuel : Nat) (l : Option (LL α)) (n : Int) :
    Option (Res α × (Option (LL α) × Int)) :=
  match fuel with
  | 0 => none
  | f + 1 =>
    match force f l with
    | none => none
    | some .panic => some (.panic, (l, n))
    | some .done => some (.done, (l, n))
    | some (.node h tl) =>
      if 0 < n then dropRun f tl (n - 1)
      else some (.node h tl, (l, n))

/-- The rest of the iteration loop shared verbatim by Go `Length`, `ToSlice`
and `Reduce`, entered with the result of the initial invocation:

    for node != nil {
        <record node.Head>
        if node.Tail != nil { node = (*node.Tail)() } else { node = nil }
    }

`walkFrom` returns the heads recorded, in order; `Except.error ()` is a panic
during the loop. -/
def walkFrom {α : Type} (fuel : Nat) (r : Res α) :
    Option (Except Unit (List α)) :=
  match r with
  | .panic => some (.error ())
  | .done => some (.ok [])
  | .node h tl =>
    match tl with
    | none => some (.ok [h])
    | some t =>
      match fuel with
      | 0 => none
      | f + 1 =>
        match force f (some t) with
        | none => none
        | some r2 =>
          match walkFrom f r2 with
          | none => none
          | some (.error e) => some (.error e)
          | some (.ok hs) => some (.ok (h :: hs))

/-- The complete Go traversal: `node := (*list)()` then the loop above.
Returns the list of heads visited, or a panic. -/
def walk {α : Type} (fuel : Nat) (l : Option (LL α)) :
    Option (Except Unit (List α)) :=
  match fuel with
  | 0 => none
  | f + 1 =>
    match force (f + 1) l with
    | none => none
    | some r => walkFrom f r

/-- Go `list.Length()`: the traversal above counting one per visited node. -/
def Length {α : Type} (fuel : Nat) (l : Option (LL α)) :
    Option (Except Unit Nat) :=
  (walk fuel l).map (fun e => e.map List.length)

/-- Go `ToSlice(list)`: `result := make([]Anything, list.Length())` followed
by the same traversal filling the slice with the heads in order.  The Length
call runs (and can panic) first; the filling loop is the same traversal, so
the slice is exactly the heads the traversal visits. -/
def ToSlice {α : Type} (fuel : Nat) (l : Option (LL α)) :
    Option (Except Unit (List α)) :=
  match Length fuel l with
  | none => none
  | some (.error e) => some (.error e)
  | some (.ok _) => walk fuel l

/-- Go `list.Reduce(f, memo)`: the same traversal, updating
`memo = f(memo, node.Head)` at each visited node, i.e. a strict left fold of
the visited heads. -/
def Reduce {α : Type} (fuel : Nat) (l : Option (LL α)) (f : α → α → α)
    (memo : α) : Option (Except Unit α) :=
  (walk fuel l).map (fun e => e.map (fun hs => hs.foldl f memo))

/-- A Go `Anything` argument as `ToList` inspects it: the nil interface, a
non-slice value, or a slice of elements. -/
inductive GoVal (α : Type) : Type where
  | nilV : GoVal α
  | scalar : α → GoVal α
  | slice : List α → GoVal α

/-- The list `ToList` builds from a slice: `result := Empty; for i := len-1;
i >= 0; i-- { result = Cons(v[i], result) }` — a right fold of `Cons` over
the slice ending in the nil pointer `Empty`. -/
def ofList {α : Type} (xs : List α) : Option (LL α) :=
  xs.foldr (fun a acc => Cons a acc) Empty

/-- Go `ToList(elements)`: panics (`Except.error`) when `elements == nil` or
its reflected kind is not Slice; otherwise builds the cons chain. -/
def ToList {α : Type} : GoVal α → Except Unit (Option (LL α))
  | .nilV => .error ()
  | .scalar _ => .error ()
  | .slice xs => .ok (ofList xs)

/-- The first `k` iterates `[s, f s, f (f s), ...]` of a successor function;
what `take k` of `Generate s f` should produce. -/
def iterList {α : Type} (s : α) (f : α → α) : Nat → List α
  | 0 => []
  | k + 1 => s :: iterList (f s) f k

/-- A list holding only the first `k` iterates of `f` from `s`, with the nil
pointer right after them: forcing anything past the `k`-th node panics, so a
computation that succeeds on `cut s f k` provably examined at most `k` nodes
of the underlying sequence. -/
def cut {α : Type} (s : α) (f : α → α) : Nat → Option (LL α)
  | 0 => none
  | k + 1 => some (.consT s (cut (f s) f k))

end Functools


namespace Functools

/-- Unfolding: no fuel, no answer. -/
theorem force_zero {α : Type} (l : Option (LL α)) : force 0 l = none := rfl

/-- Unfolding: invoking the nil pointer `Empty` panics. -/
theorem force_nil {α : Type} (f : Nat) :
    force (f + 1) (none : Option (LL α)) = some .panic := rfl

/-- Unfolding: a cons closure returns its captured head and tail pointer. -/
theorem force_cons {α : Type} (f : Nat) (h : α) (tl : Option (LL α)) :
    force (f + 1) (some (.consT h tl)) = some (.node h tl) := rfl

/-- Unfolding: a generate closure returns its seed and a fresh generate
closure advanced by the successor. -/
theorem force_gen {α : Type} (f : Nat) (s : α) (g : α → α) :
    force (f + 1) (some (.genT s g)) =
      some (.node s (some (.genT (g s) g))) := rfl

/-- Unfolding of one invocation of a take closure. -/
theorem force_take {α : Type} (f : Nat) (l : Option (LL α)) (n : Int) :
    force (f + 1) (some (.takeT l n)) =
      if 0 < n then
        match force f l with
        | none => none
        | some .panic => some .panic
        | some .done => some .done
        | some (.node h tl) => some (.node h (some (.takeT tl (n - 1))))
      else some .done := rfl

/-- Unfolding of one invocation of a map closure. -/
theorem force_map {α : Type} (f : Nat) (l : Option (LL α)) (g : α → α) :
    force (f + 1) (some (.mapT l g)) =
      match force f l with
      | none => none
      | some r => some (mapRes g r) := rfl

/-- Unfolding of one invocation of a drop closure. -/
theorem force_drop {α : Type} (f : Nat) (l : Option (LL α)) (n : Int) :
    force (f + 1) (some (.dropT l n)) =
      match force f l with
      | none => none
      | some .panic => some .panic
      | some .done => some .done
      | some (.node h tl) =>
        if 0 < n then force f (some (.dropT tl (n - 1)))
        else some (.node h tl) := rfl

/-- Unfolding of the loop entered on a realized node with a non-nil tail. -/
theorem walkFrom_node {α : Type} (f : Nat) (h : α) (t : LL α) :
    walkFrom (f + 1) (.node h (some t)) =
      match force f (some t) with
      | none => none
      | some r2 =>
        match walkFrom f r2 with
        | none => none
        | some (.error e) => some (.error e)
        | some (.ok hs) => some (.ok (h :: hs)) := rfl

/-- Unfolding of the complete traversal at positive fuel. -/
theorem walk_succ {α : Type} (f : Nat) (l : Option (LL α)) :
    walk (f + 1) l =
      match force (f + 1) l with
      | none => none
      | some r => walkFrom f r := rfl

/-- Unfolding of a complete Drop-closure invocation at positive fuel. -/
theorem dropRun_succ {α : Type} (f : Nat) (l : Option (LL α)) (n : Int) :
    dropRun (f + 1) l n =
      match force f l with
      | none => none
      | some .panic => some (.panic, (l, n))
      | some .done => some (.done, (l, n))
      | some (.node h tl) =>
        if 0 < n then dropRun f tl (n - 1)
        else some (.node h tl, (l, n)) := rfl

/-- Fuel monotonicity of invocation: once an invocation completes at some
fuel, more fuel gives the same outcome. -/
theorem force_mono {α : Type} (f f2 : Nat) (hle : f ≤ f2) (l : Option (LL α))
    (r : Res α) (h : force f l = some r) : force f2 l = some r := by
  induction f generalizing f2 l r with
  | zero => rw [force_zero] at h; exact Option.noConfusion h
  | succ f ih =>
    obtain ⟨f3, rfl⟩ : ∃ g, f2 = g + 1 := ⟨f2 - 1, by omega⟩
    have hF : f ≤ f3 := by omega
    cases l with
    | none => rw [force_nil] at h ⊢; exact h
    | some t =>
      cases t with
      | consT hd tl => rw [force_cons] at h ⊢; exact h
      | genT s g => rw [force_gen] at h ⊢; exact h
      | takeT l2 n =>
        rw [force_take] at h ⊢
        by_cases hn : 0 < n
        · rw [if_pos hn] at h ⊢
          cases hfl : force f l2 with
          | none =>
            rw [hfl] at h
            exact Option.noConfusion (show (none : Option (Res α)) = some r from h)
          | some r2 =>
            rw [hfl] at h
            rw [ih f3 hF l2 r2 hfl]
            exact h
        · rw [if_neg hn] at h ⊢; exact h
      | mapT l2 g =>
        rw [force_map] at h ⊢
        cases hfl : force f l2 with
        | none =>
          rw [hfl] at h
          exact Option.noConfusion (show (none : Option (Res α)) = some r from h)
        | some r2 =>
          rw [hfl] at h
          rw [ih f3 hF l2 r2 hfl]
          exact h
      | dropT l2 n =>
        rw [force_drop] at h ⊢
        cases hfl : force f l2 with
        | none =>
          rw [hfl] at h
          exact Option.noConfusion (show (none : Option (Res α)) = some r from h)
        | some r2 =>
          rw [hfl] at h
          rw [ih f3 hF l2 r2 hfl]
          cases r2 with
          | panic => exact h
          | done => exact h
          | node hd tl =>
            have h2 : (if 0 < n then force f (some (.dropT tl (n - 1)))
                else some (.node hd tl)) = some r := h
            show (if 0 < n then force f3 (some (.dropT tl (n - 1)))
                else some (.node hd tl)) = some r
            by_cases hn : 0 < n
            · rw [if_pos hn] at h2 ⊢
              exact ih f3 hF _ r h2
            · rw [if_neg hn] at h2 ⊢
              exact h2

/-- Fuel monotonicity for a complete Drop-closure invocation. -/
theorem dropRun_mono {α : Type} (f f2 : Nat) (hle : f ≤ f2)
    (l : Option (LL α)) (n : Int) (x : Res α × (Option (LL α) × Int))
    (h : dropRun f l n = some x) : dropRun f2 l n = some x := by
  induction f generalizing f2 l n x with
  | zero => exact Option.noConfusion h
  | succ f ih =>
    obtain ⟨f3, rfl⟩ : ∃ g, f2 = g + 1 := ⟨f2 - 1, by omega⟩
    have hF : f ≤ f3 := by omega
    rw [dropRun_succ] at h ⊢
    cases hfl : force f l with
    | none =>
      rw [hfl] at h
      exact Option.noConfusion
        (show (none : Option (Res α × (Option (LL α) × Int))) = some x from h)
    | some r2 =>
      rw [hfl] at h
      rw [force_mono f f3 hF l r2 hfl]
      cases r2 with
      | panic => exact h
      | done => exact h
      | node hd tl =>
        have h2 : (if 0 < n then dropRun f tl (n - 1)
            else some (.node hd tl, (l, n))) = some x := h
        show (if 0 < n then dropRun f3 tl (n - 1)
            else some (.node hd tl, (l, n))) = some x
        by_cases hn : 0 < n
        · rw [if_pos hn] at h2 ⊢
          exact ih f3 hF tl (n - 1) x h2
        · rw [if_neg hn] at h2 ⊢
          exact h2

/-- Sanity: the result of one Drop-closure invocation is the first component
of `dropRun`; the closure with its state made explicit computes the same
outcome as `force` on the drop closure. -/
theorem force_dropT_eq_dropRun {α : Type} (f : Nat) (l : Option (LL α))
    (n : Int) :
    force f (some (.dropT l n)) = (dropRun f l n).map Prod.fst := by
  induction f generalizing l n with
  | zero => rfl
  | succ f ih =>
    rw [force_drop, dropRun_succ]
    cases hfl : force f l with
    | none => rfl
    | some r2 =>
      cases r2 with
      | panic => rfl
      | done => rfl
      | node hd tl =>
        show (if 0 < n then force f (some (.dropT tl (n - 1)))
            else some (.node hd tl)) =
          (if 0 < n then dropRun f tl (n - 1)
            else some (.node hd tl, (l, n))).map Prod.fst
        by_cases hn : 0 < n
        · rw [if_pos hn, if_pos hn]
          exact ih tl (n - 1)
        · rw [if_neg hn, if_neg hn]
          rfl

end Functools

namespace Functools

/-- One loop level commutes with Map: walking from the mapped image of a
realized node is the original walk with `f` applied to every recorded head
(one extra fuel pays for the extra map-closure invocation per node). -/
theorem walkFrom_map {α : Type} (g : α → α) (f : Nat) (r : Res α) :
    walkFrom (f + 1) (mapRes g r) =
      (walkFrom f r).map (Except.map (List.map g)) := by
  induction f generalizing r with
  | zero =>
    cases r with
    | panic => rfl
    | done => rfl
    | node hd tl =>
      cases tl with
      | none => rfl
      | some t => rfl
  | succ f ih =>
    cases r with
    | panic => rfl
    | done => rfl
    | node hd tl =>
      cases tl with
      | none => rfl
      | some t =>
        show walkFrom (f + 1 + 1) (.node (g hd) (some (.mapT (some t) g))) = _
        rw [walkFrom_node, force_map, walkFrom_node]
        cases hf : force f (some t) with
        | none => rfl
        | some r2 =>
          simp only [ih r2]
          cases hw : walkFrom f r2 with
          | none => rfl
          | some e =>
            cases e with
            | error e0 => rfl
            | ok hs => rfl

/-- The full traversal commutes with Map likewise. -/
theorem walk_map {α : Type} (g : α → α) (f : Nat) (l : Option (LL α)) :
    walk (f + 1) (some (.mapT l g)) =
      (walk f l).map (Except.map (List.map g)) := by
  cases f with
  | zero => rfl
  | succ f =>
    rw [walk_succ, walk_succ, force_map]
    cases hf : force (f + 1) l with
    | none => rfl
    | some r => simp only [walkFrom_map g f r]

/-- ToSlice succeeds with `xs` exactly when the underlying traversal does
(the Length pre-pass and the filling loop are the same traversal). -/
theorem toSlice_eq_ok_iff_walk {α : Type} (f : Nat) (l : Option (LL α))
    (xs : List α) :
    ToSlice f l = some (.ok xs) ↔ walk f l = some (.ok xs) := by
  constructor
  · intro h
    unfold ToSlice Length at h
    cases hw : walk f l with
    | none =>
      rw [hw] at h
      exact Option.noConfusion
        (show (none : Option (Except Unit (List α))) = some (.ok xs) from h)
    | some e =>
      cases e with
      | error e0 =>
        rw [hw] at h
        exact absurd
          (show (some (Except.error e0) : Option (Except Unit (List α))) =
            some (.ok xs) from h) (by simp)
      | ok ys =>
        rw [hw] at h
        exact (show (some (Except.ok ys) : Option (Except Unit (List α))) =
          some (.ok xs) from h)
  · intro h
    unfold ToSlice Length
    rw [h]
    rfl

/-- Re-invoking a Drop closure on the captured state a completed,
non-panicking invocation left behind returns the same outcome and leaves
the state unchanged again. -/
theorem dropRun_stable {α : Type} (fuel : Nat) (l : Option (LL α)) (n : Int)
    (r : Res α) (st : Option (LL α) × Int)
    (h : dropRun fuel l n = some (r, st)) (hr : r ≠ .panic) :
    dropRun fuel st.1 st.2 = some (r, st) := by
  induction fuel generalizing l n with
  | zero => exact Option.noConfusion h
  | succ f ih =>
    rw [dropRun_succ] at h
    cases hfl : force f l with
    | none =>
      rw [hfl] at h
      exact Option.noConfusion
        (show (none : Option (Res α × (Option (LL α) × Int))) =
          some (r, st) from h)
    | some r2 =>
      rw [hfl] at h
      cases r2 with
      | panic =>
        have h2 : (some ((Res.panic : Res α), (l, n)) :
            Option (Res α × (Option (LL α) × Int))) = some (r, st) := h
        have h3 := Option.some.inj h2
        injection h3 with hr2 hst
        exact absurd hr2.symm hr
      | done =>
        have h2 : (some ((Res.done : Res α), (l, n)) :
            Option (Res α × (Option (LL α) × Int))) = some (r, st) := h
        have h3 := Option.some.inj h2
        injection h3 with hr2 hst
        subst hr2
        subst hst
        show dropRun (f + 1) l n = some (.done, (l, n))
        rw [dropRun_succ, hfl]
      | node hd tl =>
        have h2 : (if 0 < n then dropRun f tl (n - 1)
            else some (.node hd tl, (l, n))) = some (r, st) := h
        by_cases hn : 0 < n
        · rw [if_pos hn] at h2
          exact dropRun_mono f (f + 1) (by omega) st.1 st.2 (r, st)
            (ih tl (n - 1) h2)
        · rw [if_neg hn] at h2
          have h3 := Option.some.inj h2
          injection h3 with hr2 hst
          subst hr2
          subst hst
          show dropRun (f + 1) l n = some (.node hd tl, (l, n))
          rw [dropRun_succ, hfl]
          show (if 0 < n then dropRun f tl (n - 1)
              else some (.node hd tl, (l, n))) = some (.node hd tl, (l, n))
          rw [if_neg hn]

end Functools

namespace Functools

/-- Walking the loop from a realized node whose tail is take `k` of a
generate closure records the successor iterates of the seed. -/
theorem walkFrom_take_gen {α : Type} (g : α → α) :
    ∀ (k : Nat) (s : α) (F : Nat), k + 2 ≤ F →
      walkFrom F (.node s (some (.takeT (some (.genT (g s) g)) (k : Int)))) =
        some (.ok (s :: iterList (g s) g k)) := by
  intro k
  induction k with
  | zero =>
    intro s F hF
    obtain ⟨F1, rfl⟩ : ∃ F1, F = F1 + 1 := ⟨F - 1, by omega⟩
    obtain ⟨F2, rfl⟩ : ∃ F2, F1 = F2 + 1 := ⟨F1 - 1, by omega⟩
    rw [walkFrom_node, force_take,
      if_neg (by omega : ¬ (0 : Int) < ((0 : Nat) : Int))]
    rfl
  | succ k ih =>
    intro s F hF
    obtain ⟨F1, rfl⟩ : ∃ F1, F = F1 + 1 := ⟨F - 1, by omega⟩
    obtain ⟨F2, rfl⟩ : ∃ F2, F1 = F2 + 1 := ⟨F1 - 1, by omega⟩
    obtain ⟨F3, rfl⟩ : ∃ F3, F2 = F3 + 1 := ⟨F2 - 1, by omega⟩
    have hpos : (0 : Int) < ((k + 1 : Nat) : Int) := by omega
    have hsub : ((k + 1 : Nat) : Int) - 1 = (k : Int) := by omega
    rw [walkFrom_node, force_take, if_pos hpos, force_gen, hsub]
    simp only [ih (g s) (F3 + 1 + 1) (by omega), iterList]

/-- The full traversal of take `k` over the infinite generate list
terminates and records exactly the first `k` iterates of the seed. -/
theorem walk_take_gen {α : Type} (s : α) (g : α → α) (k F : Nat)
    (hF : k + 3 ≤ F) :
    walk F (Take (Generate s g) (k : Int)) = some (.ok (iterList s g k)) := by
  obtain ⟨F1, rfl⟩ : ∃ F1, F = F1 + 1 := ⟨F - 1, by omega⟩
  obtain ⟨F2, rfl⟩ : ∃ F2, F1 = F2 + 1 := ⟨F1 - 1, by omega⟩
  show walk (F2 + 1 + 1) (some (.takeT (some (.genT s g)) (k : Int))) = _
  rw [walk_succ, force_take]
  cases k with
  | zero =>
    rw [if_neg (by omega : ¬ (0 : Int) < ((0 : Nat) : Int))]
    rfl
  | succ k =>
    rw [if_pos (by omega : (0 : Int) < ((k + 1 : Nat) : Int)), force_gen,
      show ((k + 1 : Nat) : Int) - 1 = (k : Int) from by omega]
    simp only [walkFrom_take_gen g k s (F2 + 1) (by omega), iterList]

/-- Same walk, from a node whose tail is take `k` of the `cut` list that
has only `k` nodes followed by the nil pointer: identical answer, and
forcing past the k-th node would have panicked. -/
theorem walkFrom_take_cut {α : Type} (g : α → α) :
    ∀ (k : Nat) (s : α) (F : Nat), k + 2 ≤ F →
      walkFrom F (.node s (some (.takeT (cut (g s) g k) (k : Int)))) =
        some (.ok (s :: iterList (g s) g k)) := by
  intro k
  induction k with
  | zero =>
    intro s F hF
    obtain ⟨F1, rfl⟩ : ∃ F1, F = F1 + 1 := ⟨F - 1, by omega⟩
    obtain ⟨F2, rfl⟩ : ∃ F2, F1 = F2 + 1 := ⟨F1 - 1, by omega⟩
    rw [walkFrom_node, force_take,
      if_neg (by omega : ¬ (0 : Int) < ((0 : Nat) : Int))]
    rfl
  | succ k ih =>
    intro s F hF
    obtain ⟨F1, rfl⟩ : ∃ F1, F = F1 + 1 := ⟨F - 1, by omega⟩
    obtain ⟨F2, rfl⟩ : ∃ F2, F1 = F2 + 1 := ⟨F1 - 1, by omega⟩
    obtain ⟨F3, rfl⟩ : ∃ F3, F2 = F3 + 1 := ⟨F2 - 1, by omega⟩
    have hpos : (0 : Int) < ((k + 1 : Nat) : Int) := by omega
    have hsub : ((k + 1 : Nat) : Int) - 1 = (k : Int) := by omega
    rw [walkFrom_node, force_take, if_pos hpos,
      show cut (g s) g (k + 1) = some (.consT (g s) (cut (g (g s)) g k))
        from rfl,
      force_cons, hsub]
    simp only [ih (g s) (F3 + 1 + 1) (by omega), iterList]

/-- The full traversal of take `k` over the `cut` list with exactly `k`
real nodes succeeds with the same answer as over the infinite list. -/
theorem walk_take_cut {α : Type} (s : α) (g : α → α) (k F : Nat)
    (hF : k + 3 ≤ F) :
    walk F (Take (cut s g k) (k : Int)) = some (.ok (iterList s g k)) := by
  obtain ⟨F1, rfl⟩ : ∃ F1, F = F1 + 1 := ⟨F - 1, by omega⟩
  obtain ⟨F2, rfl⟩ : ∃ F2, F1 = F2 + 1 := ⟨F1 - 1, by omega⟩
  show walk (F2 + 1 + 1) (some (.takeT (cut s g k) (k : Int))) = _
  rw [walk_succ, force_take]
  cases k with
  | zero =>
    rw [if_neg (by omega : ¬ (0 : Int) < ((0 : Nat) : Int))]
    rfl
  | succ k =>
    rw [if_pos (by omega : (0 : Int) < ((k + 1 : Nat) : Int)),
      show cut s g (k + 1) = some (.consT s (cut (g s) g k)) from rfl,
      force_cons,
      show ((k + 1 : Nat) : Int) - 1 = (k : Int) from by omega]
    simp only [walkFrom_take_cut g k s (F2 + 1) (by omega), iterList]

end Functools

namespace Functools

/-- C1: the round trip `toEagerSequence(fromEagerSequence(xs))` fails on the
empty sequence: `fromEagerSequence([])` returns the nil pointer `Empty`, and
`ToSlice` of it panics (its `Length` pre-pass dereferences the nil pointer)
instead of returning the empty sequence; on a non-empty sequence such as
`[1,2,3]` the round trip holds with order preserved. -/
theorem roundtrip_empty_panics :
    ToList (GoVal.slice ([] : List Int)) = .ok none ∧
    ToSlice 5 (none : Option (LL Int)) = some (.error ()) ∧
    ToSlice 5 (ofList ([1,2,3] : List Int)) = some (.ok [1,2,3]) :=
  ⟨rfl, rfl, rfl⟩

/-- C2: dropping past the end of a list built by `fromEagerSequence` is a
panic, not the empty list: measuring `drop(fromEagerSequence([1,2,3]), 10)`
dereferences the nil `Empty` pointer terminating the chain; for `n` below
the length the expected suffix is produced, e.g. `n = 1` yields `[2,3]`. -/
theorem drop_past_end_panics :
    Length 20 (Drop (ofList ([1,2,3] : List Int)) 10) = some (.error ()) ∧
    ToSlice 20 (Drop (ofList ([1,2,3] : List Int)) 1) = some (.ok [2,3]) :=
  ⟨rfl, rfl⟩

/-- C3: `length(take(L, n))` equals `min(n, length L)` only for
`n ≤ length L`; for larger `n` on a list terminated by the nil `Empty`
pointer it panics: `length(take(fromEagerSequence([1]), 2))` dereferences
nil instead of returning 1, while `length(take(fromEagerSequence([1,2,3]),
2))` is 2 as specified. -/
theorem length_take_past_end_panics :
    Length 20 (Take (ofList ([1] : List Int)) 2) = some (.error ()) ∧
    Length 20 (Take (ofList ([1,2,3] : List Int)) 2) = some (.ok 2) :=
  ⟨rfl, rfl⟩

/-- C4: `Empty` is a nil pointer, not a thunk yielding the end sentinel:
`fromEagerSequence([])` returns it, invoking it panics, and both `Length`
and `ToSlice` on it panic instead of returning 0 and the empty sequence. -/
theorem empty_marker_panics :
    ToList (GoVal.slice ([] : List Int)) = .ok none ∧
    force 1 (none : Option (LL Int)) = some .panic ∧
    Length 5 (none : Option (LL Int)) = some (.error ()) ∧
    ToSlice 6 (none : Option (LL Int)) = some (.error ()) :=
  ⟨rfl, rfl, rfl, rfl⟩

/-- C5: the generator: one invocation of `Generate(s, g)` yields head `s`
and tail `Generate(g s, g)`; realizing `take(generate(2, x*x), 3)` via
`toEagerSequence` yields `[2, 4, 16]` and `take(generate(1, x*x), 4)`
yields `[1, 1, 1, 1]`. -/
theorem generate_head_tail_examples :
    (∀ (s : Int) (g : Int → Int),
        force 1 (Generate s g) = some (.node s (Generate (g s) g))) ∧
    ToSlice 20 (Take (Generate (2 : Int) (fun x => x * x)) 3) =
      some (.ok [2, 4, 16]) ∧
    ToSlice 20 (Take (Generate (1 : Int) (fun x => x * x)) 4) =
      some (.ok [1, 1, 1, 1]) :=
  ⟨fun s g => rfl, rfl, rfl⟩

/-- C6: for every list `L` whose `ToSlice` traversal completes with the
sequence `xs`, and every unary single-result function `f`,
`ToSlice(Map(L, f))` completes with exactly `f` applied to each element of
`xs`, in the same order (one extra fuel pays for the map closure layer). -/
theorem toSlice_map_elementwise {α : Type} (fuel : Nat) (l : Option (LL α))
    (g : α → α) (xs : List α) (h : ToSlice fuel l = some (.ok xs)) :
    ToSlice (fuel + 1) (Map l g) = some (.ok (List.map g xs)) := by
  have hw := (toSlice_eq_ok_iff_walk fuel l xs).mp h
  have h2 : walk (fuel + 1) (some (.mapT l g)) =
      some (.ok (List.map g xs)) := by
    rw [walk_map g fuel l, hw]
    rfl
  exact (toSlice_eq_ok_iff_walk (fuel + 1) (Map l g) (List.map g xs)).mpr h2

/-- C6 witness: the map law at `L = fromEagerSequence([1,2,3])` and
`f = (x ↦ 2x)`. -/
theorem toSlice_map_elementwise_witness :
    ToSlice 5 (ofList ([1,2,3] : List Int)) = some (.ok [1,2,3]) ∧
    ToSlice 6 (Map (ofList ([1,2,3] : List Int)) (fun x => x * 2)) =
      some (.ok [2,4,6]) :=
  ⟨rfl, toSlice_map_elementwise 5 (ofList [1,2,3]) (fun x => x * 2)
    [1,2,3] rfl⟩

/-- C7: `Reduce` left-folds the visited heads: on `fromEagerSequence(
[1,2,3])` with addition from 0 it returns 6; but on the empty list (the nil
pointer `Empty`) it panics instead of returning the initial accumulator. -/
theorem reduce_foldl_empty_panics :
    Reduce 10 (ofList ([1,2,3] : List Int)) (fun acc x => acc + x) 0 =
      some (.ok 6) ∧
    Reduce 5 (none : Option (LL Int)) (fun acc x => acc + x) 0 =
      some (.error ()) :=
  ⟨rfl, rfl⟩

/-- C8: fully evaluating `take(L, n)` (running the traversal over the list
`Take` returns) forces at most `n` nodes of `L` even when `L` is infinite:
over the infinite `Generate(s, g)` the traversal terminates with the first
`n` iterates, and it returns the identical successful answer over
`cut s g n`, which has only `n` nodes followed by the nil pointer — forcing
any node past the `n`-th would panic, and none does.  And for `n ≤ 0` a
single invocation of the Take closure yields the end sentinel at fuel 1
(at which any inner invocation would return no answer), for every
underlying `l` including the nil pointer — so `L` is not invoked at all. -/
theorem take_bounded_forcing {α : Type} :
    (∀ (s : α) (g : α → α) (k F : Nat), k + 3 ≤ F →
      walk F (Take (Generate s g) (k : Int)) =
        some (.ok (iterList s g k)) ∧
      walk F (Take (cut s g k) (k : Int)) =
        some (.ok (iterList s g k))) ∧
    (∀ (l : Option (LL α)) (n : Int), n ≤ 0 →
      force 1 (Take l n) = some .done) := by
  constructor
  · intro s g k F hF
    exact ⟨walk_take_gen s g k F hF, walk_take_cut s g k F hF⟩
  · intro l n hn
    show force 1 (some (.takeT l n)) = some .done
    rw [show (1 : Nat) = 0 + 1 from rfl, force_take, if_neg (by omega)]

/-- C8 witness: take 2 of the infinite counter from 5, and take of a
negative count over the nil pointer. -/
theorem take_bounded_forcing_witness :
    ((2 : Nat) + 3 ≤ 5 ∧
      walk 5 (Take (Generate (5 : Int) (fun x => x + 1)) ((2 : Nat) : Int)) =
        some (.ok [5, 6]) ∧
      walk 5 (Take (cut (5 : Int) (fun x => x + 1) 2) ((2 : Nat) : Int)) =
        some (.ok [5, 6])) ∧
    ((-3 : Int) ≤ 0 ∧
      force 1 (Take (none : Option (LL Int)) (-3)) = some .done) := by
  constructor
  · refine ⟨by omega, ?_, ?_⟩
    · exact (take_bounded_forcing.1 (5 : Int) (fun x => x + 1) 2 5
        (by omega)).1
    · exact (take_bounded_forcing.1 (5 : Int) (fun x => x + 1) 2 5
        (by omega)).2
  · exact ⟨by omega, take_bounded_forcing.2 none (-3) (by omega)⟩

/-- C9: `ToList` reports a precondition violation exactly when its argument
is not a slice (the nil interface or a scalar value); in particular the
scalar 5 is rejected with an error, not silently coerced. -/
theorem toList_invalid_input_iff :
    (∀ (v : GoVal Int),
      (∃ u, ToList v = .error u) ↔ ∀ xs, v ≠ GoVal.slice xs) ∧
    ToList (GoVal.scalar (5 : Int)) = .error () := by
  constructor
  · intro v
    cases v with
    | nilV =>
      constructor
      · intro _ xs h
        exact GoVal.noConfusion h
      · intro _
        exact ⟨(), rfl⟩
    | scalar a =>
      constructor
      · intro _ xs h
        exact GoVal.noConfusion h
      · intro _
        exact ⟨(), rfl⟩
    | slice xs =>
      constructor
      · rintro ⟨u, hu⟩
        exact absurd hu (by simp [ToList])
      · intro h
        exact absurd rfl (h xs)
  · rfl

/-- C9 witness: the characterization applied at the nil interface value. -/
theorem toList_invalid_input_iff_witness :
    ∃ u, ToList (GoVal.nilV : GoVal Int) = .error u :=
  (toList_invalid_input_iff.1 GoVal.nilV).mpr
    (fun xs h => GoVal.noConfusion h)

/-- C10: invoking the same thunk repeatedly yields the same logical result:
(1) any two completed invocations of the same closure agree on their
outcome, and (2) a Drop closure — which reassigns its captured list pointer
and counter — re-invoked on the captures left behind by a completed
non-panicking invocation returns the same outcome and leaves the captures
unchanged, so every later invocation repeats the same result. -/
theorem thunk_repeat_stable {α : Type} :
    (∀ (l : Option (LL α)) (f1 f2 : Nat) (r1 r2 : Res α),
      force f1 l = some r1 → force f2 l = some r2 → r1 = r2) ∧
    (∀ (fuel : Nat) (l : Option (LL α)) (n : Int) (r : Res α)
        (st : Option (LL α) × Int),
      dropRun fuel l n = some (r, st) → r ≠ .panic →
      dropRun fuel st.1 st.2 = some (r, st)) := by
  constructor
  · intro l f1 f2 r1 r2 h1 h2
    rcases Nat.le_total f1 f2 with hle | hle
    · have h3 := force_mono f1 f2 hle l r1 h1
      rw [h3] at h2
      exact Option.some.inj h2
    · have h3 := force_mono f2 f1 hle l r2 h2
      rw [h3] at h1
      exact (Option.some.inj h1).symm
  · exact fun fuel l n r st h hr => dropRun_stable fuel l n r st h hr

/-- C10 witness: two invocations of the cons closure for `[1]` agree, and a
concrete Drop-closure invocation on `[1,2,3]` with `n = 1` re-run on its
updated captures repeats the same node and state. -/
theorem thunk_repeat_stable_witness :
    (force 3 (ofList ([1] : List Int)) = some (.node 1 none) ∧
      force 5 (ofList ([1] : List Int)) = some (.node 1 none) ∧
      (Res.node (1 : Int) none) = (Res.node (1 : Int) none)) ∧
    (dropRun 10 (ofList ([1,2,3] : List Int)) 1 =
        some (.node 2 (some (.consT 3 none)),
          (some (.consT 2 (some (.consT 3 none))), 0)) ∧
      dropRun 10 (some (.consT 2 (some (.consT 3 none)))) 0 =
        some (.node 2 (some (.consT 3 none)),
          (some (.consT 2 (some (.consT 3 none))), 0))) := by
  constructor
  · exact ⟨rfl, rfl, thunk_repeat_stable.1 (ofList [1]) 3 5 _ _ rfl rfl⟩
  · constructor
    · rfl
    · exact thunk_repeat_stable.2 10 (ofList [1,2,3]) 1 _ _ rfl (by simp)

end Functools
